import Mathlib

/-!
Shallow embedding of the PDF ingestion pipeline of this repository
(src/src/pdf_processor.py, src/src/handlers.py, src/src/config.py).

Page and chunk text is modelled as `List Char`; Python dicts keyed by
strings are modelled as association lists; functions that may raise
return `Except String _`; the outcomes of external collaborators
(PyPDF2 page extraction, the embedding/vector store, the filesystem)
are supplied as explicit inputs.
-/

/-- Configured chunk size (config.py CHUNK_SIZE, default 1000). -/
def CHUNK_SIZE : Nat := 1000

/-- Configured chunk overlap (config.py CHUNK_OVERLAP, default 200). -/
def CHUNK_OVERLAP : Nat := 200

/-- Configured page limit (config.py MAX_PDF_PAGES, default 500). -/
def MAX_PDF_PAGES : Nat := 500

/-- Upload directory (config.py UPLOAD_DIR), modelled as a path string. -/
def UPLOAD_DIR : String := "data/uploads"

/-- Python str.strip(): remove leading and trailing whitespace. -/
def pyStrip (s : List Char) : List Char :=
  ((s.dropWhile Char.isWhitespace).reverse.dropWhile Char.isWhitespace).reverse

/-- Python str.lower(), over the string's characters. -/
def pyLower (s : List Char) : List Char :=
  s.map Char.toLower

/-- Python str.endswith(sfx): the last |sfx| characters equal sfx. -/
def pyEndsWith (s sfx : List Char) : Bool :=
  if sfx.length ≤ s.length then s.drop (s.length - sfx.length) == sfx
  else false

/-- Modelled from the spec: the size/overlap text splitter configured in
PDFProcessor.__init__ (langchain RecursiveCharacterTextSplitter with
chunk_size=CHUNK_SIZE and chunk_overlap=CHUNK_OVERLAP); its implementation
is an external library and is not under src/. Per the spec it is a sliding
window over the characters of one record: every chunk is at most `size`
characters and consecutive chunks advance by `step = size - overlap`
characters, so they share `overlap` characters of boundary context; the
final (boundary) chunk may be shorter. -/
def splitChunksGo (size step fuel : Nat) (s : List Char) : List (List Char) :=
  match fuel with
  | 0 => [s]
  | fuel + 1 =>
    if s.length ≤ size ∨ step = 0 then [s]
    else s.take size :: splitChunksGo size step fuel (s.drop step)

/-- The splitter itself: the window advances by `step` characters per chunk
until the remaining text fits in one chunk. `s.length` steps of fuel always
suffice, since each advance consumes at least one character. -/
def splitChunks (size step : Nat) (s : List Char) : List (List Char) :=
  splitChunksGo size step s.length s

/-- Provenance metadata carried by one langchain Document
(chunk_documents, pdf_processor.py lines 182-186). -/
structure ChunkMeta where
  document_id : String
  page_number : Nat
  src_tag : String
deriving DecidableEq, Repr

/-- A langchain Document: page content plus metadata. -/
structure Chunk where
  page_content : List Char
  metadata : ChunkMeta
deriving DecidableEq, Repr

/-- Modelled from the spec: text_splitter.split_documents (external library,
not under src/) runs the splitter record-by-record; every chunk inherits its
source record's metadata unchanged, and output order is record order then
within-record split order. -/
def split_documents (size overlap : Nat) (docs : List Chunk) : List Chunk :=
  docs.flatMap (fun d =>
    (splitChunks size (size - overlap) d.page_content).map
      (fun t => { page_content := t, metadata := d.metadata }))

/-- The loop body of chunk_documents (pdf_processor.py lines 178-188): a
page with truthy stripped text becomes a Document carrying its original
text and provenance metadata (document_id, 1-based page number,
source="pdf"); a blank page contributes nothing. -/
def pageRecord (document_id : String) (p : Nat × List Char) : Option Chunk :=
  if pyStrip p.2 ≠ [] then
    some { page_content := p.2,
           metadata := { document_id := document_id, page_number := p.1 + 1,
                         src_tag := "pdf" } }
  else none

/-- PDFProcessor.chunk_documents: wrap each page whose stripped text is
non-empty with provenance metadata, then split the page records into
chunks. -/
def chunk_documents (size overlap : Nat) (pages_text : List (List Char))
    (document_id : String) : List Chunk :=
  split_documents size overlap
    (pages_text.enum.filterMap (pageRecord document_id))

/-- Outcome of page.extract_text() for one page: PyPDF2 returns an optional
string or raises. -/
inductive PageOutcome where
  | ok (text : Option (List Char))
  | err (msg : String)
deriving DecidableEq, Repr

/-- PDFProcessor._extract_page_text: returns (page_num, stripped text); a
falsy (None or empty) result or a raised exception degrades to "". -/
def _extract_page_text (page_num : Nat) (page : PageOutcome) : Nat × List Char :=
  match page with
  | .ok (some t) => (page_num, if t ≠ [] then pyStrip t else [])
  | .ok none => (page_num, [])
  | .err _ => (page_num, [])

/-- The per-page task results, indexed by enumerate(reader.pages)
(extract_text, pdf_processor.py line 142). -/
def canonicalResults (pages : List PageOutcome) : List (Nat × List Char) :=
  pages.enum.map (fun p => _extract_page_text p.1 p.2)

/-- PDFProcessor.extract_text: pre-allocate one empty slot per page and write
each completed task's text into the slot of its own page index;
`completions` is the as_completed order in which task results arrive. -/
def extract_text (pages : List PageOutcome)
    (completions : List (Nat × List Char)) : List (List Char) :=
  completions.foldl (fun acc r => acc.set r.1 r.2)
    (List.replicate pages.length [])

/-- One document's persisted metadata record (upload_pdf / process_pdf). -/
structure DocMeta where
  file_path : String
  num_pages : Nat
  file_size : Nat
  file_hash : String
  status : String
  processed : Bool
  num_chunks : Option Nat := none
  error : Option String := none
deriving DecidableEq, Repr

/-- One in-flight processing-status entry. -/
structure StatusEntry where
  stage : String
  progress : Nat
  total : Nat
deriving DecidableEq, Repr

/-- Python dict assignment d[k] = v: overwrite in place, else append. -/
def dictSet {α : Type} (m : List (String × α)) (k : String) (v : α) :
    List (String × α) :=
  if m.any (fun p => p.1 == k) then
    m.map (fun p => if p.1 == k then (k, v) else p)
  else m ++ [(k, v)]

/-- Python del d[k]. -/
def dictRemove {α : Type} (m : List (String × α)) (k : String) :
    List (String × α) :=
  m.filter (fun p => p.1 != k)

/-- The mutable state of a PDFProcessor: the in-memory metadata dict, its
on-disk copy (metadata.json), and the in-memory processing_status dict. -/
structure ProcState where
  metadata : List (String × DocMeta)
  savedMetadata : List (String × DocMeta)
  processing_status : List (String × StatusEntry)
deriving Repr

/-- PDFProcessor._save_metadata: rewrite the on-disk copy in full. -/
def saveMetadata (st : ProcState) : ProcState :=
  { st with savedMetadata := st.metadata }

/-- PDFProcessor.__init__: load metadata from disk, empty status table. -/
def initState (loaded : List (String × DocMeta)) : ProcState :=
  { metadata := loaded, savedMetadata := loaded, processing_status := [] }

/-- PDFProcessor.get_processing_status. -/
def get_processing_status (st : ProcState) (document_id : String) :
    Option StatusEntry :=
  st.processing_status.lookup document_id

/-- PDFProcessor.list_documents: one record per metadata entry, with its id. -/
def list_documents (st : ProcState) : List (String × DocMeta) :=
  st.metadata

/-- The filesystem/parse facts validate_pdf consults about one path. -/
structure PdfFileInput where
  file_path : String
  file_present : Bool
  open_pdf : Except String Nat
  read_bytes : Except String (List Nat)
  file_size : Nat

/-- Result of validate_pdf, as the Python dict literals it returns. -/
inductive ValidateResult where
  | ok (num_pages file_size : Nat) (file_hash : String)
  | invalid (error : String)
deriving DecidableEq, Repr

/-- The keys of the Python dict each validate_pdf result literal carries. -/
def ValidateResult.keys : ValidateResult → List String
  | .ok .. => ["valid", "num_pages", "file_size", "file_hash"]
  | .invalid _ => ["valid", "error"]

/-- PDFProcessor.validate_pdf; the md5 hexdigest primitive (hashlib) is an
external collaborator, supplied as a function. -/
def validate_pdf (md5_hexdigest : List Nat → String) (max_pdf_pages : Nat)
    (f : PdfFileInput) : ValidateResult :=
  if !f.file_present then .invalid "File not found"
  else if !(pyEndsWith (pyLower f.file_path.data) ".pdf".data) then
    .invalid "File is not a PDF"
  else match f.open_pdf with
    | .error e => .invalid e
    | .ok num_pages =>
      if num_pages > max_pdf_pages then
        .invalid ("PDF has " ++ toString num_pages ++
          " pages, exceeds maximum of " ++ toString max_pdf_pages)
      else match f.read_bytes with
        | .error e => .invalid e
        | .ok bs => .ok num_pages f.file_size (md5_hexdigest bs)

/-- Result of upload_pdf: either its success dict, or the validate_pdf dict
returned unchanged when validation fails (pdf_processor.py line 258). -/
inductive UploadResult where
  | uploadOk (document_id : String) (num_pages : Nat)
  | fromValidation (v : ValidateResult)
deriving DecidableEq, Repr

/-- The keys of the Python dict each upload_pdf result carries. -/
def UploadResult.keys : UploadResult → List String
  | .uploadOk .. => ["success", "document_id", "num_pages", "message"]
  | .fromValidation v => v.keys

/-- The destination path UPLOAD_DIR / f"{document_id}.pdf". -/
def uploadDest (document_id : String) : String :=
  UPLOAD_DIR ++ "/" ++ document_id ++ ".pdf"

/-- PDFProcessor.upload_pdf. `copy_result` is the outcome of shutil.copy2; a
raised copy error propagates out of upload_pdf (modelled as Except.error). -/
def upload_pdf (md5_hexdigest : List Nat → String) (max_pdf_pages : Nat)
    (f : PdfFileInput) (copy_result : Except String Unit) (st : ProcState)
    (document_id : String) : Except String (UploadResult × ProcState) :=
  match validate_pdf md5_hexdigest max_pdf_pages f with
  | .invalid e => .ok (.fromValidation (.invalid e), st)
  | .ok num_pages file_size file_hash =>
    match (if f.file_path ≠ uploadDest document_id then copy_result
           else .ok ()) with
    | .error e => .error e
    | .ok _ =>
      let meta : DocMeta :=
        { file_path := uploadDest document_id, num_pages := num_pages,
          file_size := file_size, file_hash := file_hash,
          status := "uploaded", processed := false }
      let st' :=
        saveMetadata { st with metadata := dictSet st.metadata document_id meta }
      .ok (.uploadOk document_id num_pages, st')

/-- External outcomes of one process_pdf run: the PdfReader open inside
extract_text, the as_completed completion order of the page tasks, and
the create_vector_store round trip. -/
structure RunEnv where
  open_pages : Except String (List PageOutcome)
  completions : List (Nat × List Char)
  vectorize : Except String Unit

/-- Result of process_pdf, as the Python dict literals it returns. -/
inductive PdfResult where
  | processOk (document_id : String) (num_pages num_chunks : Nat)
  | processErr (error : String)
deriving DecidableEq, Repr

/-- The keys of the Python dict each process_pdf result literal carries. -/
def PdfResult.keys : PdfResult → List String
  | .processOk .. => ["success", "document_id", "num_pages", "num_chunks", "message"]
  | .processErr _ => ["success", "error"]

/-- Write one processing-status entry (under the status lock). -/
def setStatus (st : ProcState) (document_id : String) (e : StatusEntry) :
    ProcState :=
  { st with processing_status := dictSet st.processing_status document_id e }

/-- Delete one processing-status entry (under the status lock). -/
def clearStatus (st : ProcState) (document_id : String) : ProcState :=
  { st with processing_status := dictRemove st.processing_status document_id }

/-- In-place mutation of one document's metadata record. -/
def updateDoc (st : ProcState) (document_id : String) (f : DocMeta → DocMeta) :
    ProcState :=
  { st with
    metadata := st.metadata.map
      (fun p => if p.1 == document_id then (p.1, f p.2) else p) }

/-- The two metadata assignments of process_pdf's except branch
(pdf_processor.py lines 358-359): set status="error" and the message.
The `processed` flag is not assigned. -/
def markError (e : String) (m : DocMeta) : DocMeta :=
  { m with status := "error", error := some e }

/-- The three metadata assignments of process_pdf's success path
(pdf_processor.py lines 339-341). -/
def markProcessed (n : Nat) (m : DocMeta) : DocMeta :=
  { m with status := "processed", processed := true, num_chunks := some n }

/-- The except-branch of process_pdf (pdf_processor.py lines 356-367):
record status="error" and the message in metadata, persist, clear the
status entry. It does not touch the `processed` flag. -/
def processError (st : ProcState) (document_id : String) (e : String) :
    PdfResult × ProcState :=
  let st1 := updateDoc st document_id (markError e)
  let st2 := saveMetadata st1
  let st3 := clearStatus st2 document_id
  (.processErr e, st3)

/-- PDFProcessor.process_pdf: the full pipeline for one document. -/
def process_pdf (env : RunEnv) (st : ProcState) (document_id : String) :
    PdfResult × ProcState :=
  match st.metadata.lookup document_id with
  | none => (.processErr "Document not found", st)
  | some doc_meta =>
    let st1 := setStatus st document_id
      { stage := "starting", progress := 0, total := 100 }
    match env.open_pages with
    | .error e => processError st1 document_id e
    | .ok pages =>
      let st2 := setStatus st1 document_id
        { stage := "extracting", progress := 0, total := pages.length }
      let pages_text := extract_text pages env.completions
      let st3 := setStatus st2 document_id
        { stage := "extracting", progress := env.completions.length,
          total := pages.length }
      let st4 := setStatus st3 document_id
        { stage := "chunking", progress := 0, total := 100 }
      let chunked := chunk_documents CHUNK_SIZE CHUNK_OVERLAP pages_text
        document_id
      let st5 := setStatus st4 document_id
        { stage := "vectorizing", progress := 0, total := 100 }
      match env.vectorize with
      | .error e => processError st5 document_id e
      | .ok _ =>
        let st6 := updateDoc st5 document_id (markProcessed chunked.length)
        let st7 := saveMetadata st6
        let st8 := clearStatus st7 document_id
        (.processOk document_id doc_meta.num_pages chunked.length, st8)

/-- Result of an MCP tool handler (handlers.py), as the dicts it returns. -/
inductive HandlerResult where
  | missing (error : String)
  | fromUpload (r : UploadResult)
  | caught (error : String)
  | listOk (documents : List (String × DocMeta))
deriving Repr

/-- The keys of the Python dict each handler result carries. -/
def HandlerResult.keys : HandlerResult → List String
  | .missing _ => ["success", "error"]
  | .fromUpload r => r.keys
  | .caught _ => ["success", "error"]
  | .listOk _ => ["success", "documents"]

/-- handlers.handle_upload_pdf: reject missing or falsy (empty) arguments,
otherwise return upload_pdf's result (`core`), converting a raised
exception to the uniform error dict. -/
def handle_upload_pdf (file_path document_id : Option String)
    (core : Except String UploadResult) : HandlerResult :=
  match file_path, document_id with
  | some fp, some did =>
    if fp = "" ∨ did = "" then .missing "Missing required arguments"
    else match core with
      | .ok r => .fromUpload r
      | .error e => .caught e
  | _, _ => .missing "Missing required arguments"

/-- handlers.handle_list_pdfs: wrap list_documents in the uniform shape,
converting a raised exception to the uniform error dict. -/
def handle_list_pdfs (core : Except String (List (String × DocMeta))) :
    HandlerResult :=
  match core with
  | .ok docs => .listOk docs
  | .error e => .caught e

/-! Concrete sample values used by witnesses and counterexamples. -/

/-- A freshly uploaded document record. -/
def sampleMeta : DocMeta :=
  { file_path := "data/uploads/d.pdf", num_pages := 1, file_size := 10,
    file_hash := "h", status := "uploaded", processed := false }

/-- A record left by an earlier successful processing run. -/
def processedMeta : DocMeta :=
  { file_path := "data/uploads/d.pdf", num_pages := 1, file_size := 10,
    file_hash := "h", status := "processed", processed := true,
    num_chunks := some 2 }

/-- A store holding one uploaded document "d". -/
def sampleSt : ProcState :=
  { metadata := [("d", sampleMeta)], savedMetadata := [("d", sampleMeta)],
    processing_status := [] }

/-- A store holding one already-processed document "d". -/
def processedSt : ProcState :=
  { metadata := [("d", processedMeta)],
    savedMetadata := [("d", processedMeta)], processing_status := [] }

/-- A run whose PDF open raises. -/
def failEnv : RunEnv :=
  { open_pages := .error "boom", completions := [], vectorize := .ok () }

/-- A run over a one-page PDF whose page reads "ab", with every external
round trip succeeding; the single task completes first (and only). -/
def okEnv : RunEnv :=
  { open_pages := .ok [PageOutcome.ok (some ['a', 'b'])],
    completions := [(0, ['a', 'b'])], vectorize := .ok () }

/-- An empty processor state. -/
def emptySt : ProcState :=
  { metadata := [], savedMetadata := [], processing_status := [] }

/-- A two-page PDF: page 1 reads "a", page 2's extraction raises. -/
def wPages : List PageOutcome := [.ok (some ['a']), .err "x"]

/-- The task results of `wPages` arriving in page order. -/
def wComp1 : List (Nat × List Char) := [(0, ['a']), (1, [])]

/-- The task results of `wPages` arriving in reverse order. -/
def wComp2 : List (Nat × List Char) := [(1, []), (0, ['a'])]

/-! Helper lemmas about the dictionary operations and the processor state. -/

theorem lookup_dictRemove {α : Type} (m : List (String × α)) (k : String) :
    (dictRemove m k).lookup k = none := by
  induction m with
  | nil => rfl
  | cons p t ih =>
    obtain ⟨a, b⟩ := p
    by_cases hp : a = k
    · simpa [dictRemove, List.filter_cons, hp] using ih
    · have hk : (k == a) = false := beq_eq_false_iff_ne.mpr (Ne.symm hp)
      simpa [dictRemove, List.filter_cons, List.lookup_cons, hp, hk] using ih

theorem lookup_dictSet {α : Type} (m : List (String × α)) (k : String) (v : α) :
    (dictSet m k v).lookup k = some v := by
  induction m with
  | nil => simp [dictSet, List.lookup_cons]
  | cons p t ih =>
    obtain ⟨a, b⟩ := p
    by_cases hp : a = k
    · simp [dictSet, List.any_cons, hp, List.lookup_cons]
    · have hk : (k == a) = false := beq_eq_false_iff_ne.mpr (Ne.symm hp)
      by_cases ht : t.any (fun q => q.1 == k) = true
      · have ih' : (t.map (fun p => if p.1 == k then (k, v) else p)).lookup k =
            some v := by simpa [dictSet, ht] using ih
        simp [dictSet, List.any_cons, hp, hk, ht, List.lookup_cons]
        simpa using ih'
      · have ih' : (t ++ [(k, v)]).lookup k = some v := by
          simpa [dictSet, ht] using ih
        simp [dictSet, List.any_cons, hp, hk, ht, List.lookup_cons, ih']

theorem lookup_mapUpdate {α : Type} (m : List (String × α)) (k : String)
    (f : α → α) :
    (m.map (fun p => if p.1 == k then (p.1, f p.2) else p)).lookup k =
      (m.lookup k).map f := by
  induction m with
  | nil => rfl
  | cons p t ih =>
    obtain ⟨a, b⟩ := p
    by_cases hp : a = k
    · simp [List.lookup_cons, hp]
    · have hk : (k == a) = false := beq_eq_false_iff_ne.mpr (Ne.symm hp)
      simp [List.lookup_cons, hp, hk]
      simpa using ih

theorem status_processError (st : ProcState) (d : String) (e : String) :
    get_processing_status (processError st d e).2 d = none := by
  simp [processError, clearStatus, saveMetadata, get_processing_status,
    lookup_dictRemove]

/-- C3: a processing-status entry exists only while a run is in flight:
the table is empty at construction, every path of process_pdf on a stored
document (success or failure) removes the entry before returning, and the
not-found path leaves the state untouched. -/
theorem processing_status_only_in_flight :
    (∀ loaded d, get_processing_status (initState loaded) d = none) ∧
    (∀ env st d m, st.metadata.lookup d = some m →
      get_processing_status (process_pdf env st d).2 d = none) ∧
    (∀ env st d, st.metadata.lookup d = none → (process_pdf env st d).2 = st) := by
  refine ⟨fun loaded d => rfl, ?_, ?_⟩
  · intro env st d m hm
    unfold process_pdf
    rw [hm]
    cases env.open_pages with
    | error e => exact status_processError _ _ _
    | ok pages =>
      cases hv : env.vectorize with
      | error e => simp only [hv]; exact status_processError _ _ _
      | ok u =>
        simp only [hv]
        simp [get_processing_status, clearStatus, saveMetadata, updateDoc,
          lookup_dictRemove]
  · intro env st d hm
    unfold process_pdf
    rw [hm]

theorem processing_status_only_in_flight_witness :
    sampleSt.metadata.lookup "d" = some sampleMeta ∧
    get_processing_status (process_pdf failEnv sampleSt "d").2 "d" = none :=
  ⟨rfl, processing_status_only_in_flight.2.1 failEnv sampleSt "d" sampleMeta rfl⟩

/-- C4: process_pdf on a document id absent from the metadata store returns
the "Document not found" error dict and leaves the whole state unchanged
(no status entry, no metadata mutation, no persistence). -/
theorem process_pdf_not_found (env : RunEnv) (st : ProcState) (d : String)
    (h : st.metadata.lookup d = none) :
    process_pdf env st d = (.processErr "Document not found", st) := by
  unfold process_pdf
  rw [h]

theorem process_pdf_not_found_witness :
    emptySt.metadata.lookup "ghost" = none ∧
    process_pdf failEnv emptySt "ghost" =
      (.processErr "Document not found", emptySt) :=
  ⟨rfl, process_pdf_not_found failEnv emptySt "ghost" rfl⟩

theorem processError_fst (st : ProcState) (d : String) (e : String) :
    (processError st d e).1 = .processErr e := rfl

theorem processError_saved (st : ProcState) (d : String) (e : String) :
    (processError st d e).2.savedMetadata = (processError st d e).2.metadata := rfl

theorem processError_lookup (st : ProcState) (d : String) (e : String) :
    (processError st d e).2.metadata.lookup d =
      (st.metadata.lookup d).map (markError e) := by
  simp only [processError, clearStatus, saveMetadata, updateDoc]
  exact lookup_mapUpdate st.metadata d (markError e)

/-- C1 (amended): for a stored document, a failing process_pdf run persists
status="error" and the error message while leaving the `processed` flag at
its previous value, and a successful run persists status="processed",
processed=true and num_chunks equal to the length of the chunk list the
chunker returned for that run. -/
theorem process_pdf_metadata_after_run (env : RunEnv) (st : ProcState)
    (d : String) (m : DocMeta) (hm : st.metadata.lookup d = some m) :
    (∀ e, (process_pdf env st d).1 = .processErr e →
      (process_pdf env st d).2.metadata.lookup d = some (markError e m) ∧
      (markError e m).status = "error" ∧
      (markError e m).processed = m.processed ∧
      (markError e m).error = some e ∧
      (process_pdf env st d).2.savedMetadata =
        (process_pdf env st d).2.metadata) ∧
    (∀ pages u, env.open_pages = .ok pages → env.vectorize = .ok u →
      (process_pdf env st d).1 = .processOk d m.num_pages
        (chunk_documents CHUNK_SIZE CHUNK_OVERLAP
          (extract_text pages env.completions) d).length ∧
      (process_pdf env st d).2.metadata.lookup d =
        some (markProcessed (chunk_documents CHUNK_SIZE CHUNK_OVERLAP
          (extract_text pages env.completions) d).length m) ∧
      (∀ n, (markProcessed n m).status = "processed" ∧
        (markProcessed n m).processed = true ∧
        (markProcessed n m).num_chunks = some n) ∧
      (process_pdf env st d).2.savedMetadata =
        (process_pdf env st d).2.metadata) := by
  cases ho : env.open_pages with
  | error e0 =>
    have hrun : process_pdf env st d =
        processError (setStatus st d ⟨"starting", 0, 100⟩) d e0 := by
      unfold process_pdf
      rw [hm, ho]
    constructor
    · intro e he
      rw [hrun] at he ⊢
      rw [processError_fst] at he
      cases he
      refine ⟨?_, rfl, rfl, rfl, processError_saved _ _ _⟩
      rw [processError_lookup]
      simp [setStatus, hm]
    · intro pages u hpages
      exact Except.noConfusion hpages
  | ok pages0 =>
    cases hv : env.vectorize with
    | error e0 =>
      have hrun : process_pdf env st d =
          processError (setStatus (setStatus (setStatus (setStatus
            (setStatus st d ⟨"starting", 0, 100⟩) d
              ⟨"extracting", 0, pages0.length⟩) d
              ⟨"extracting", env.completions.length, pages0.length⟩) d
              ⟨"chunking", 0, 100⟩) d ⟨"vectorizing", 0, 100⟩) d e0 := by
        unfold process_pdf
        rw [hm, ho, hv]
      constructor
      · intro e he
        rw [hrun] at he ⊢
        rw [processError_fst] at he
        cases he
        refine ⟨?_, rfl, rfl, rfl, processError_saved _ _ _⟩
        rw [processError_lookup]
        simp [setStatus, hm]
      · intro pages u hpages hvec
        exact Except.noConfusion hvec
    | ok u0 =>
      have hrun : process_pdf env st d =
          (.processOk d m.num_pages
            (chunk_documents CHUNK_SIZE CHUNK_OVERLAP
              (extract_text pages0 env.completions) d).length,
           clearStatus (saveMetadata (updateDoc (setStatus (setStatus
             (setStatus (setStatus (setStatus st d ⟨"starting", 0, 100⟩) d
               ⟨"extracting", 0, pages0.length⟩) d
               ⟨"extracting", env.completions.length, pages0.length⟩) d
               ⟨"chunking", 0, 100⟩) d ⟨"vectorizing", 0, 100⟩) d
             (markProcessed (chunk_documents CHUNK_SIZE CHUNK_OVERLAP
               (extract_text pages0 env.completions) d).length))) d) := by
        unfold process_pdf
        rw [hm, ho, hv]
      constructor
      · intro e he
        rw [hrun] at he
        cases he
      · intro pages u hpages hvec
        injection hpages with hp
        subst hp
        rw [hrun]
        refine ⟨rfl, ?_, fun n => ⟨rfl, rfl, rfl⟩, rfl⟩
        simp only [clearStatus, saveMetadata, updateDoc, setStatus]
        rw [lookup_mapUpdate st.metadata d]
        simp [hm]

theorem process_pdf_metadata_after_run_witness :
    sampleSt.metadata.lookup "d" = some sampleMeta ∧
    (process_pdf okEnv sampleSt "d").1 = .processOk "d" 1 1 ∧
    (process_pdf okEnv sampleSt "d").2.metadata.lookup "d" =
      some (markProcessed 1 sampleMeta) ∧
    (markProcessed 1 sampleMeta).status = "processed" ∧
    (markProcessed 1 sampleMeta).processed = true ∧
    (markProcessed 1 sampleMeta).num_chunks = some 1 := by
  have h := (process_pdf_metadata_after_run okEnv sampleSt "d" sampleMeta
    rfl).2 [PageOutcome.ok (some ['a', 'b'])] () rfl rfl
  exact ⟨rfl, h.1, h.2.1, (h.2.2.1 1).1, (h.2.2.1 1).2.1, (h.2.2.1 1).2.2⟩

theorem process_pdf_error_keeps_processed_cex :
    (process_pdf failEnv processedSt "d").1 = .processErr "boom" ∧
    (process_pdf failEnv processedSt "d").2.metadata.lookup "d" =
      some (markError "boom" processedMeta) ∧
    (markError "boom" processedMeta).status = "error" ∧
    (markError "boom" processedMeta).processed = true ∧
    ((process_pdf failEnv processedSt "d").2.metadata.lookup "d").map
        DocMeta.processed ≠ some false := by
  refine ⟨rfl, rfl, rfl, rfl, ?_⟩
  decide

/-! The slot-array machinery of extract_text. -/

theorem fst_extract_page_text (i : Nat) (pg : PageOutcome) :
    (_extract_page_text i pg).1 = i := by
  cases pg with
  | ok t => cases t <;> rfl
  | err m => rfl

theorem foldl_set_length {α : Type} (l : List (Nat × α)) (init : List α) :
    (l.foldl (fun acc r => acc.set r.1 r.2) init).length = init.length := by
  induction l generalizing init with
  | nil => rfl
  | cons p t ih =>
    rw [List.foldl_cons, ih]
    exact List.length_set init p.1 p.2

theorem foldl_set_getElem?_of_not_mem {α : Type} (l : List (Nat × α))
    (init : List α) (j : Nat) (hj : j ∉ l.map Prod.fst) :
    (l.foldl (fun acc r => acc.set r.1 r.2) init)[j]? = init[j]? := by
  induction l generalizing init with
  | nil => rfl
  | cons p t ih =>
    simp only [List.map_cons, List.mem_cons] at hj
    push_neg at hj
    rw [List.foldl_cons, ih _ hj.2, List.getElem?_set_ne (Ne.symm hj.1)]

theorem foldl_set_getElem?_of_mem {α : Type} (l : List (Nat × α))
    (init : List α) (j : Nat) (v : α) (hnd : (l.map Prod.fst).Nodup)
    (hmem : (j, v) ∈ l) (hj : j < init.length) :
    (l.foldl (fun acc r => acc.set r.1 r.2) init)[j]? = some v := by
  induction l generalizing init with
  | nil => cases hmem
  | cons p t ih =>
    obtain ⟨a, b⟩ := p
    rw [List.foldl_cons]
    simp only [List.map_cons, List.nodup_cons] at hnd
    rcases List.mem_cons.mp hmem with heq | hmem'
    · injection heq with h1 h2
      subst h1
      subst h2
      rw [foldl_set_getElem?_of_not_mem t _ j hnd.1]
      exact List.getElem?_set_self hj
    · exact ih _ hnd.2 hmem' (by simpa using hj)

theorem extract_text_eq_canonical (pages : List PageOutcome)
    (c : List (Nat × List Char)) (hc : c.Perm (canonicalResults pages)) :
    extract_text pages c =
      pages.enum.map (fun p => (_extract_page_text p.1 p.2).2) := by
  have hkeys : (c.map Prod.fst).Nodup := by
    have hp := hc.map Prod.fst
    rw [hp.nodup_iff]
    have : (canonicalResults pages).map Prod.fst = List.range pages.length := by
      rw [canonicalResults, List.map_map]
      rw [show ((Prod.fst ∘ fun p => _extract_page_text p.1 p.2) :
          Nat × PageOutcome → Nat) = Prod.fst from
        funext fun p => fst_extract_page_text p.1 p.2]
      exact List.enum_map_fst pages
    rw [this]
    exact List.nodup_range pages.length
  apply List.ext_getElem?
  intro j
  by_cases hj : j < pages.length
  · have hcanon : (canonicalResults pages)[j]? =
        some (_extract_page_text j (pages.get ⟨j, hj⟩)) := by
      rw [canonicalResults, List.getElem?_map, List.getElem?_enum]
      simp [List.getElem?_eq_getElem hj]
    have hmem : (j, (_extract_page_text j (pages.get ⟨j, hj⟩)).2) ∈ c := by
      refine hc.mem_iff.mpr ?_
      have h1 : ((_extract_page_text j (pages.get ⟨j, hj⟩)).1,
          (_extract_page_text j (pages.get ⟨j, hj⟩)).2) ∈ canonicalResults pages :=
        List.getElem?_mem hcanon
      rwa [fst_extract_page_text] at h1
    rw [extract_text, foldl_set_getElem?_of_mem c _ j _ hkeys hmem
      (by simpa using hj)]
    rw [List.getElem?_map, List.getElem?_enum]
    simp [List.getElem?_eq_getElem hj]
  · push_neg at hj
    rw [extract_text]
    rw [List.getElem?_eq_none (by simpa [foldl_set_length] using hj)]
    rw [List.getElem?_eq_none (by simpa [List.enum_length] using hj)]

/-- C2: extract_text on an N-page PDF returns exactly N page texts; for any
permutation of the order in which the per-page task results arrive, the
returned sequence is identical, and it lists page texts in ascending page
order because each result is written into its own page-index slot. -/
theorem extract_text_order_independent (pages : List PageOutcome)
    (c1 c2 : List (Nat × List Char))
    (h1 : c1.Perm (canonicalResults pages))
    (h2 : c2.Perm (canonicalResults pages)) :
    (extract_text pages c1).length = pages.length ∧
    extract_text pages c1 = extract_text pages c2 ∧
    extract_text pages c1 =
      pages.enum.map (fun p => (_extract_page_text p.1 p.2).2) := by
  have e1 := extract_text_eq_canonical pages c1 h1
  have e2 := extract_text_eq_canonical pages c2 h2
  refine ⟨?_, e1.trans e2.symm, e1⟩
  rw [e1, List.length_map, List.enum_length]

theorem extract_text_order_independent_witness :
    wComp1.Perm (canonicalResults wPages) ∧
    wComp2.Perm (canonicalResults wPages) ∧
    (extract_text wPages wComp1).length = wPages.length ∧
    extract_text wPages wComp1 = extract_text wPages wComp2 ∧
    extract_text wPages wComp1 = [['a'], []] := by
  have h := extract_text_order_independent wPages wComp1 wComp2
    (by decide) (by decide)
  exact ⟨by decide, by decide, h.1, h.2.1, by decide⟩

/-- C5: a page whose extraction raises is caught at the task boundary and
recorded as the empty string in that page's own slot; the returned sequence
still has one entry per page, so the document never loses the page and the
exception never aborts the extraction. -/
theorem failed_page_degrades_to_empty (pages : List PageOutcome)
    (c : List (Nat × List Char)) (i : Nat) (msg : String)
    (hc : c.Perm (canonicalResults pages))
    (hi : pages[i]? = some (.err msg)) :
    _extract_page_text i (.err msg) = (i, []) ∧
    (extract_text pages c).length = pages.length ∧
    (extract_text pages c)[i]? = some [] := by
  have e := extract_text_eq_canonical pages c hc
  have hilt : i < pages.length := by
    by_contra hge
    push_neg at hge
    rw [List.getElem?_eq_none hge] at hi
    cases hi
  refine ⟨rfl, ?_, ?_⟩
  · rw [e, List.length_map, List.enum_length]
  · rw [e, List.getElem?_map, List.getElem?_enum, hi]
    rfl

theorem failed_page_degrades_to_empty_witness :
    wComp1.Perm (canonicalResults wPages) ∧
    wPages[1]? = some (.err "x") ∧
    (extract_text wPages wComp1).length = wPages.length ∧
    (extract_text wPages wComp1)[1]? = some [] := by
  have h := failed_page_degrades_to_empty wPages wComp1 1 "x"
    (by decide) (by decide)
  exact ⟨by decide, by decide, h.2.1, h.2.2⟩

/-- C8: validate_pdf on a readable PDF whose page count exceeds the
configured maximum returns valid=false with a message naming both the
actual page count (max + k + 1) and the configured maximum; any exception
raised while opening or reading the file surfaces as valid=false carrying
the underlying message; in every failing case the result is the bare
invalid dict, never a partial validation result. -/
theorem validate_pdf_failure_modes :
    (∀ md5 mp path rb sz k, pyEndsWith (pyLower path.data) ".pdf".data = true →
      validate_pdf md5 mp
        { file_path := path, file_present := true, open_pdf := .ok (mp + k + 1),
          read_bytes := rb, file_size := sz } =
        .invalid ("PDF has " ++ toString (mp + k + 1) ++
          " pages, exceeds maximum of " ++ toString mp)) ∧
    (∀ md5 mp path rb sz e, pyEndsWith (pyLower path.data) ".pdf".data = true →
      validate_pdf md5 mp
        { file_path := path, file_present := true, open_pdf := .error e,
          read_bytes := rb, file_size := sz } = .invalid e) ∧
    (∀ md5 mp path sz e n, pyEndsWith (pyLower path.data) ".pdf".data = true → n ≤ mp →
      validate_pdf md5 mp
        { file_path := path, file_present := true, open_pdf := .ok n,
          read_bytes := .error e, file_size := sz } = .invalid e) := by
  refine ⟨?_, ?_, ?_⟩
  · intro md5 mp path rb sz k hext
    simp [validate_pdf, hext]
    omega
  · intro md5 mp path rb sz e hext
    simp [validate_pdf, hext]
  · intro md5 mp path sz e n hext hle
    simp [validate_pdf, hext]
    omega

theorem validate_pdf_failure_modes_witness :
    (pyEndsWith (pyLower "doc.pdf".data) ".pdf".data = true) ∧
    validate_pdf (fun _ => "") 500
      { file_path := "doc.pdf", file_present := true, open_pdf := .ok 501,
        read_bytes := .ok [], file_size := 0 } =
      .invalid ("PDF has " ++ toString (500 + 0 + 1) ++
        " pages, exceeds maximum of " ++ toString 500) ∧
    validate_pdf (fun _ => "") 500
      { file_path := "doc.pdf", file_present := true, open_pdf := .error "bad",
        read_bytes := .ok [], file_size := 0 } = .invalid "bad" :=
  ⟨by decide,
   validate_pdf_failure_modes.1 (fun _ => "") 500 "doc.pdf" (.ok []) 0 0
     (by decide),
   validate_pdf_failure_modes.2.1 (fun _ => "") 500 "doc.pdf" (.ok []) 0 "bad"
     (by decide)⟩

/-- C10: a successful upload_pdf replaces the document's whole metadata
record with exactly the fields of a fresh upload (file_path under the
upload directory, validation's num_pages/file_size/file_hash,
status="uploaded", processed=false, and no num_chunks or error field),
and persists the store; re-uploading under an existing id overwrites the
prior record unconditionally. -/
theorem upload_pdf_replaces_record (md5_hexdigest : List Nat → String)
    (max_pdf_pages : Nat) (f : PdfFileInput) (copy_result : Except String Unit)
    (st : ProcState) (d d' : String) (n : Nat) (st' : ProcState)
    (h : upload_pdf md5_hexdigest max_pdf_pages f copy_result st d =
      Except.ok (.uploadOk d' n, st')) :
    d' = d ∧
    ∃ fs fh, validate_pdf md5_hexdigest max_pdf_pages f = .ok n fs fh ∧
      st'.metadata.lookup d = some
        { file_path := uploadDest d, num_pages := n, file_size := fs,
          file_hash := fh, status := "uploaded", processed := false,
          num_chunks := none, error := none } ∧
      st'.savedMetadata = st'.metadata := by
  unfold upload_pdf at h
  cases hv : validate_pdf md5_hexdigest max_pdf_pages f with
  | invalid e =>
    rw [hv] at h
    simp at h
  | ok np fs fh =>
    rw [hv] at h
    cases hcopy : (if f.file_path ≠ uploadDest d then copy_result
        else Except.ok ()) with
    | error e =>
      rw [hcopy] at h
      cases h
    | ok u =>
      rw [hcopy] at h
      injection h with h1
      injection h1 with h2 h3
      injection h2 with h4 h5
      subst h3
      subst h4
      subst h5
      refine ⟨rfl, fs, fh, rfl, ?_, rfl⟩
      simp only [saveMetadata]
      exact lookup_dictSet st.metadata d _

/-- A sample upload input: a 3-page, 42-byte PDF at "doc1.pdf". -/
def wUpload : PdfFileInput :=
  { file_path := "doc1.pdf", file_present := true, open_pdf := .ok 3,
    read_bytes := .ok [1, 2], file_size := 42 }

theorem upload_pdf_replaces_record_witness :
    upload_pdf (fun _ => "md5") 500 wUpload (Except.ok ()) processedSt "d" =
      Except.ok (.uploadOk "d" 3,
        saveMetadata { processedSt with
          metadata := dictSet processedSt.metadata "d"
            { file_path := uploadDest "d", num_pages := 3, file_size := 42,
              file_hash := "md5", status := "uploaded", processed := false } }) ∧
    (saveMetadata { processedSt with
        metadata := dictSet processedSt.metadata "d"
          { file_path := uploadDest "d", num_pages := 3, file_size := 42,
            file_hash := "md5", status := "uploaded", processed := false } }
      ).metadata.lookup "d" = some
        { file_path := uploadDest "d", num_pages := 3, file_size := 42,
          file_hash := "md5", status := "uploaded", processed := false,
          num_chunks := none, error := none } := by
  refine ⟨rfl, ?_⟩
  have h := upload_pdf_replaces_record (fun _ => "md5") 500 wUpload
    (Except.ok ()) processedSt "d" "d" 3 _ rfl
  obtain ⟨-, fs, fh, hv, hl, -⟩ := h
  injection hv with h1 h2 h3
  subst h2
  subst h3
  exact hl

/-- C9 (amended): process_pdf always returns a success-keyed dict and the
tool handlers convert raised exceptions into the uniform
success=false/error dict, but the boundary is not uniform: validate_pdf
returns valid-keyed dicts with no success key, a validation failure makes
upload_pdf return that valid-keyed dict unchanged, an exception in
upload_pdf's file copy propagates out of the core, and list_documents
returns a bare list that only its handler wraps in the uniform shape. -/
theorem result_shapes_not_uniform :
    (∀ env st d, "success" ∈ ((process_pdf env st d).1).keys) ∧
    (∀ md5 mp f, "valid" ∈ (validate_pdf md5 mp f).keys ∧
      "success" ∉ (validate_pdf md5 mp f).keys) ∧
    (∀ fp did e, "success" ∈ (handle_upload_pdf fp did (.error e)).keys) ∧
    (∀ core, "success" ∈ (handle_list_pdfs core).keys) ∧
    (∀ st, handle_list_pdfs (.ok (list_documents st)) =
      .listOk (list_documents st)) ∧
    (∀ md5 mp path o rb sz copy st d,
      upload_pdf md5 mp
        { file_path := path, file_present := false, open_pdf := o,
          read_bytes := rb, file_size := sz } copy st d =
        .ok (.fromValidation (.invalid "File not found"), st) ∧
      "success" ∉ (UploadResult.fromValidation
        (.invalid "File not found")).keys) ∧
    (∀ md5 st e,
      upload_pdf md5 500 wUpload (Except.error e) st "doc1" =
        Except.error e) := by
  refine ⟨?_, ?_, ?_, ?_, ?_, ?_, ?_⟩
  · intro env st d
    cases (process_pdf env st d).1 <;> simp [PdfResult.keys]
  · intro md5 mp f
    cases validate_pdf md5 mp f <;> simp [ValidateResult.keys]
  · intro fp did e
    cases fp with
    | none => simp [handle_upload_pdf, HandlerResult.keys]
    | some f =>
      cases did with
      | none => simp [handle_upload_pdf, HandlerResult.keys]
      | some d =>
        by_cases hfd : f = "" ∨ d = "" <;>
          simp [handle_upload_pdf, HandlerResult.keys, hfd]
  · intro core
    cases core <;> simp [handle_list_pdfs, HandlerResult.keys]
  · intro st
    rfl
  · intro md5 mp path o rb sz copy st d
    exact ⟨rfl, by simp [UploadResult.keys, ValidateResult.keys]⟩
  · intro md5 st e
    rfl

theorem validate_result_lacks_success_key_cex :
    validate_pdf (fun _ => "") 500
      { file_path := "a.pdf", file_present := false, open_pdf := .ok 0,
        read_bytes := .ok [], file_size := 0 } = .invalid "File not found" ∧
    "success" ∉ (ValidateResult.invalid "File not found").keys ∧
    "valid" ∈ (ValidateResult.invalid "File not found").keys := by
  refine ⟨rfl, ?_, ?_⟩ <;> simp [ValidateResult.keys]

/-! Lemmas about the splitter window. -/

theorem splitChunksGo_length_le (size step : Nat) (hstep : step ≠ 0) :
    ∀ fuel s, s.length ≤ fuel →
      ∀ c ∈ splitChunksGo size step fuel s, c.length ≤ size := by
  intro fuel
  induction fuel with
  | zero =>
    intro s hs c hc
    have : s = [] := List.eq_nil_of_length_eq_zero (Nat.le_zero.mp hs)
    subst this
    simp only [splitChunksGo, List.mem_singleton] at hc
    subst hc
    simp
  | succ fuel ih =>
    intro s hs c hc
    rw [splitChunksGo] at hc
    split at hc
    · rename_i hcond
      rcases hcond with hle | hz
      · simp only [List.mem_singleton] at hc
        subst hc
        exact hle
      · exact absurd hz hstep
    · rename_i hcond
      push_neg at hcond
      rcases List.mem_cons.mp hc with hhd | htl
      · subst hhd
        simp [List.length_take]
      · refine ih (s.drop step) ?_ c htl
        have hpos : 0 < step := Nat.pos_of_ne_zero hstep
        simp only [List.length_drop]
        omega

theorem splitChunksGo_head (size step : Nat) (hstep : step ≠ 0) :
    ∀ fuel s, s.length ≤ fuel →
      ∃ hd tl, splitChunksGo size step fuel s = hd :: tl ∧
        hd.take (size - step) = s.take (size - step) ∧
        ((size - step) ≤ s.length → (size - step) ≤ hd.length) := by
  intro fuel
  cases fuel with
  | zero =>
    intro s hs
    have : s = [] := List.eq_nil_of_length_eq_zero (Nat.le_zero.mp hs)
    subst this
    exact ⟨[], [], rfl, rfl, fun h => h⟩
  | succ fuel =>
    intro s hs
    rw [splitChunksGo]
    split
    · exact ⟨s, [], rfl, rfl, fun h => h⟩
    · rename_i hcond
      push_neg at hcond
      refine ⟨s.take size, _, rfl, ?_, ?_⟩
      · rw [List.take_take]
        rw [Nat.min_eq_left (Nat.sub_le size step)]
      · intro h
        simp only [List.length_take]
        have := hcond.1
        omega

theorem splitChunksGo_chain' (size step : Nat) (hstep : step ≠ 0) :
    ∀ fuel s, s.length ≤ fuel →
      List.Chain'
        (fun a b => a.length = size ∧ (size - step) ≤ b.length ∧
          b.take (size - step) = a.drop step)
        (splitChunksGo size step fuel s) := by
  intro fuel
  induction fuel with
  | zero =>
    intro s hs
    have : s = [] := List.eq_nil_of_length_eq_zero (Nat.le_zero.mp hs)
    subst this
    exact List.chain'_singleton []
  | succ fuel ih =>
    intro s hs
    rw [splitChunksGo]
    split
    · exact List.chain'_singleton s
    · rename_i hcond
      push_neg at hcond
      have hpos : 0 < step := Nat.pos_of_ne_zero hstep
      have hdlen : (s.drop step).length ≤ fuel := by
        simp only [List.length_drop]
        omega
      obtain ⟨hd, tl, htl, htake, hlen⟩ :=
        splitChunksGo_head size step hstep fuel (s.drop step) hdlen
      rw [htl, List.chain'_cons]
      constructor
      · refine ⟨?_, ?_, ?_⟩
        · rw [List.length_take]
          exact Nat.min_eq_left (Nat.le_of_lt hcond.1)
        · refine hlen ?_
          simp only [List.length_drop]
          omega
        · rw [htake, List.drop_take]
      · rw [← htl]
        exact ih (s.drop step) hdlen

theorem splitChunks_length_le (size step : Nat) (hstep : step ≠ 0)
    (s : List Char) : ∀ c ∈ splitChunks size step s, c.length ≤ size :=
  splitChunksGo_length_le size step hstep s.length s (Nat.le_refl _)

theorem splitChunks_chain' (size step : Nat) (hstep : step ≠ 0)
    (s : List Char) :
    List.Chain'
      (fun a b => a.length = size ∧ (size - step) ≤ b.length ∧
        b.take (size - step) = a.drop step)
      (splitChunks size step s) :=
  splitChunksGo_chain' size step hstep s.length s (Nat.le_refl _)

/-! Lemmas about the page records fed to the splitter. -/

theorem pairwise_fst_lt_enumFrom {α : Type} (j : Nat) (l : List α) :
    List.Pairwise (fun a b => a.1 < b.1) (List.enumFrom j l) := by
  induction l generalizing j with
  | nil => exact List.Pairwise.nil
  | cons x t ih =>
    refine List.Pairwise.cons ?_ (ih (j + 1))
    intro b hb
    obtain ⟨b1, b2⟩ := b
    exact Nat.lt_of_lt_of_le (Nat.lt_succ_self j) (List.mem_enumFrom hb).1

theorem pageRecord_pn (did : String) (p : Nat × List Char) (c : Chunk)
    (h : pageRecord did p = some c) :
    c.metadata = { document_id := did, page_number := p.1 + 1,
                   src_tag := "pdf" } ∧
    c.page_content = p.2 ∧ pyStrip p.2 ≠ [] := by
  rw [pageRecord] at h
  split at h
  · rename_i hs
    injection h with h1
    subst h1
    exact ⟨rfl, rfl, hs⟩
  · cases h

theorem pairwise_pageRecords (did : String) (j : Nat) (l : List (List Char)) :
    List.Pairwise (fun a b => a.metadata.page_number < b.metadata.page_number)
      ((List.enumFrom j l).filterMap (pageRecord did)) := by
  refine List.Pairwise.filterMap (pageRecord did) ?_
    (pairwise_fst_lt_enumFrom j l)
  intro p q hpq c hc c' hc'
  rw [(pageRecord_pn did p c hc).1, (pageRecord_pn did q c' hc').1]
  exact Nat.succ_lt_succ hpq

theorem pageRecord_pn_lower (did : String) (m : Nat) (l : List (List Char)) :
    ∀ c ∈ (List.enumFrom m l).filterMap (pageRecord did),
      m + 1 ≤ c.metadata.page_number := by
  intro c hc
  obtain ⟨p, hp, hpr⟩ := List.mem_filterMap.mp hc
  obtain ⟨a, b⟩ := p
  rw [(pageRecord_pn did (a, b) c hpr).1]
  exact Nat.succ_le_succ (List.mem_enumFrom hp).1

theorem mem_split_documents (size overlap : Nat) (docs : List Chunk)
    (c : Chunk) (hc : c ∈ split_documents size overlap docs) :
    ∃ d ∈ docs, c.metadata = d.metadata ∧
      c.page_content ∈ splitChunks size (size - overlap) d.page_content := by
  obtain ⟨d, hd, hcd⟩ := List.mem_flatMap.mp hc
  obtain ⟨u, hu, huc⟩ := List.mem_map.mp hcd
  subst huc
  exact ⟨d, hd, rfl, hu⟩

theorem filter_split_documents (size overlap n : Nat) (docs : List Chunk) :
    (split_documents size overlap docs).filter
      (fun c => c.metadata.page_number == n) =
    split_documents size overlap
      (docs.filter (fun d => d.metadata.page_number == n)) := by
  induction docs with
  | nil => rfl
  | cons d rest ih =>
    rw [split_documents, List.flatMap_cons, List.filter_append,
      List.filter_map, List.filter_cons]
    by_cases hd : d.metadata.page_number = n
    · have hcmp : ((fun c => c.metadata.page_number == n) ∘
          (fun t => ({ page_content := t, metadata := d.metadata } : Chunk))) =
          fun _ => true := by
        funext t
        simp [hd]
      rw [hcmp, List.filter_true]
      simp only [hd, beq_self_eq_true, if_pos]
      rw [split_documents, List.flatMap_cons]
      rw [← split_documents, ← split_documents, ih]
    · have hcmp : ((fun c => c.metadata.page_number == n) ∘
          (fun t => ({ page_content := t, metadata := d.metadata } : Chunk))) =
          fun _ => false := by
        funext t
        simp [hd]
      rw [hcmp, List.filter_false]
      have hb : (d.metadata.page_number == n) = false :=
        beq_eq_false_iff_ne.mpr hd
      rw [hb]
      simp only [List.nil_append, Bool.false_eq_true, if_false]
      rw [← split_documents, ih]
      simp

theorem filter_pn_of_pairwise (docs : List Chunk) (n : Nat)
    (h : List.Pairwise (fun a b =>
      a.metadata.page_number < b.metadata.page_number) docs) :
    docs.filter (fun d => d.metadata.page_number == n) = [] ∨
    ∃ d, docs.filter (fun d => d.metadata.page_number == n) = [d] := by
  induction docs with
  | nil => exact Or.inl rfl
  | cons d rest ih =>
    obtain ⟨hall, hrest⟩ := List.pairwise_cons.mp h
    rw [List.filter_cons]
    by_cases hd : d.metadata.page_number = n
    · right
      refine ⟨d, ?_⟩
      simp only [hd, beq_self_eq_true, if_pos]
      have : rest.filter (fun d => d.metadata.page_number == n) = [] := by
        rw [List.filter_eq_nil_iff]
        intro b hb
        have := hall b hb
        simp only [beq_iff_eq]
        omega
      rw [this]
    · have hb : (d.metadata.page_number == n) = false :=
        beq_eq_false_iff_ne.mpr hd
      rw [hb]
      simpa using ih hrest

/-- C6: no chunk produced by the chunker exceeds the configured chunk size,
and any two adjacent chunks drawn from the same source page share exactly
the configured overlap of boundary context: the earlier chunk is full
(length = size) and its last `overlap` characters equal the next chunk's
first `overlap` characters; only a boundary (final) chunk may be shorter
than the size. -/
theorem chunker_size_and_overlap (size overlap : Nat) (hov : overlap < size)
    (pages_text : List (List Char)) (document_id : String) :
    (∀ c ∈ chunk_documents size overlap pages_text document_id,
      c.page_content.length ≤ size) ∧
    (∀ n, List.Chain'
      (fun a b => a.page_content.length = size ∧
        overlap ≤ b.page_content.length ∧
        b.page_content.take overlap = a.page_content.drop (size - overlap))
      ((chunk_documents size overlap pages_text document_id).filter
        (fun c => c.metadata.page_number == n))) := by
  have hstep : size - overlap ≠ 0 := by omega
  have hso : size - (size - overlap) = overlap :=
    Nat.sub_sub_self (Nat.le_of_lt hov)
  constructor
  · intro c hc
    obtain ⟨d, hd, hmeta, hsp⟩ := mem_split_documents _ _ _ c hc
    exact splitChunks_length_le size (size - overlap) hstep d.page_content
      c.page_content hsp
  · intro n
    rw [chunk_documents, filter_split_documents]
    rcases filter_pn_of_pairwise _ n
        (pairwise_pageRecords document_id 0 pages_text) with hnil | ⟨d, hone⟩
    · rw [show pages_text.enum = List.enumFrom 0 pages_text from rfl, hnil]
      simp [split_documents]
    · rw [show pages_text.enum = List.enumFrom 0 pages_text from rfl, hone]
      rw [split_documents, List.flatMap_cons, List.flatMap_nil,
        List.append_nil, List.chain'_map]
      have h := splitChunks_chain' size (size - overlap) hstep d.page_content
      rw [hso] at h
      exact h

theorem chunker_size_and_overlap_witness :
    (2 : Nat) < 5 ∧
    chunk_documents 5 2 ["abcdefgh".data] "d" =
      [⟨"abcde".data, ⟨"d", 1, "pdf"⟩⟩, ⟨"defgh".data, ⟨"d", 1, "pdf"⟩⟩] ∧
    ("abcde".data.drop 3 = "de".data ∧ "defgh".data.take 2 = "de".data) ∧
    (∀ c ∈ chunk_documents 5 2 ["abcdefgh".data] "d",
      c.page_content.length ≤ 5) :=
  ⟨by decide, by decide, by decide,
   (chunker_size_and_overlap 5 2 (by decide) ["abcdefgh".data] "d").1⟩

theorem mem_chunk_documents (size overlap : Nat)
    (pages_text : List (List Char)) (did : String) (c : Chunk)
    (hc : c ∈ chunk_documents size overlap pages_text did) :
    ∃ i t, pages_text[i]? = some t ∧ pyStrip t ≠ [] ∧
      c.metadata = ⟨did, i + 1, "pdf"⟩ ∧
      c.page_content ∈ splitChunks size (size - overlap) t := by
  rw [chunk_documents] at hc
  obtain ⟨d, hd, hmeta, hsp⟩ := mem_split_documents _ _ _ c hc
  obtain ⟨p, hp, hpr⟩ := List.mem_filterMap.mp hd
  obtain ⟨hm, hcontent, hstrip⟩ := pageRecord_pn did p d hpr
  refine ⟨p.1, p.2, List.mem_enum_iff_getElem?.mp hp, hstrip, ?_, ?_⟩
  · rw [hmeta, hm]
  · rw [hcontent] at hsp
    exact hsp

theorem pairwise_trivial {α : Type} {R : α → α → Prop} (h : ∀ a b, R a b) :
    ∀ l : List α, List.Pairwise R l := by
  intro l
  induction l with
  | nil => exact List.Pairwise.nil
  | cons x t ih => exact List.Pairwise.cons (fun b _ => h x b) ih

theorem pairwise_split_documents (size overlap : Nat) (docs : List Chunk)
    (h : List.Pairwise (fun a b =>
      a.metadata.page_number < b.metadata.page_number) docs) :
    List.Pairwise (fun a b =>
      a.metadata.page_number ≤ b.metadata.page_number)
      (split_documents size overlap docs) := by
  induction docs with
  | nil => exact List.Pairwise.nil
  | cons d rest ih =>
    obtain ⟨hall, hrest⟩ := List.pairwise_cons.mp h
    rw [split_documents, List.flatMap_cons, List.pairwise_append]
    refine ⟨?_, ih hrest, ?_⟩
    · rw [List.pairwise_map]
      exact pairwise_trivial (fun a b => Nat.le_refl _) _
    · intro a ha b hb
      obtain ⟨u, hu, hau⟩ := List.mem_map.mp ha
      obtain ⟨d', hd', hmeta, -⟩ := mem_split_documents size overlap rest b hb
      subst hau
      rw [hmeta]
      exact Nat.le_of_lt (hall d' hd')

theorem filter_pageRecords (did : String) :
    ∀ (l : List (List Char)) (j i : Nat) (t : List Char), l[i]? = some t →
      ((List.enumFrom j l).filterMap (pageRecord did)).filter
        (fun d => d.metadata.page_number == j + i + 1) =
      (if pyStrip t ≠ [] then
        [⟨t, ⟨did, j + i + 1, "pdf"⟩⟩] else []) := by
  intro l
  induction l with
  | nil =>
    intro j i t h
    rw [List.getElem?_nil] at h
    cases h
  | cons x rest ih =>
    intro j i t h
    rw [show List.enumFrom j (x :: rest) =
      (j, x) :: List.enumFrom (j + 1) rest from rfl]
    rw [List.filterMap_cons]
    cases i with
    | zero =>
      rw [List.getElem?_cons_zero] at h
      injection h with hx
      subst hx
      have hrest : ((List.enumFrom (j + 1) rest).filterMap
          (pageRecord did)).filter
          (fun d => d.metadata.page_number == j + 0 + 1) = [] := by
        rw [List.filter_eq_nil_iff]
        intro b hb
        have := pageRecord_pn_lower did (j + 1) rest b hb
        simp only [beq_iff_eq]
        omega
      by_cases hs : pyStrip x ≠ []
      · have hpr : pageRecord did (j, x) =
            some ⟨x, ⟨did, j + 1, "pdf"⟩⟩ := by
          rw [pageRecord, if_pos hs]
        rw [hpr, List.filter_cons]
        have hcond : ((⟨x, ⟨did, j + 1, "pdf"⟩⟩ :
            Chunk).metadata.page_number == j + 0 + 1) = true := by
          simp
        rw [hcond, if_pos rfl, hrest, if_pos hs]
      · have hpr : pageRecord did (j, x) = none := by
          rw [pageRecord, if_neg hs]
        rw [hpr, hrest, if_neg hs]
    | succ i' =>
      rw [List.getElem?_cons_succ] at h
      have hkey : j + (i' + 1) + 1 = (j + 1) + i' + 1 := by omega
      simp only [hkey]
      by_cases hs : pyStrip x ≠ []
      · have hpr : pageRecord did (j, x) =
            some ⟨x, ⟨did, j + 1, "pdf"⟩⟩ := by
          rw [pageRecord, if_pos hs]
        rw [hpr, List.filter_cons]
        have hcond : ((⟨x, ⟨did, j + 1, "pdf"⟩⟩ :
            Chunk).metadata.page_number == (j + 1) + i' + 1) = false := by
          refine beq_eq_false_iff_ne.mpr ?_
          show j + 1 ≠ (j + 1) + i' + 1
          omega
        rw [hcond]
        simp only [Bool.false_eq_true, if_false]
        exact ih (j + 1) i' t h
      · have hpr : pageRecord did (j, x) = none := by
          rw [pageRecord, if_neg hs]
        rw [hpr]
        exact ih (j + 1) i' t h

/-- C7: every chunk the chunker produces carries the supplied document_id,
source="pdf", and the 1-based page number of a stored page whose stripped
text is non-empty; blank pages contribute no chunks; the output is in
ascending page order; and the chunks bearing page number i+1 are exactly
the in-order splits of page i's text. -/
theorem chunker_metadata_and_order (size overlap : Nat)
    (pages_text : List (List Char)) (document_id : String) :
    (∀ c ∈ chunk_documents size overlap pages_text document_id,
      c.metadata.document_id = document_id ∧ c.metadata.src_tag = "pdf" ∧
      ∃ i t, pages_text[i]? = some t ∧ c.metadata.page_number = i + 1 ∧
        pyStrip t ≠ []) ∧
    (∀ i t, pages_text[i]? = some t → pyStrip t = [] →
      ∀ c ∈ chunk_documents size overlap pages_text document_id,
        c.metadata.page_number ≠ i + 1) ∧
    List.Chain' (fun a b =>
      a.metadata.page_number ≤ b.metadata.page_number)
      (chunk_documents size overlap pages_text document_id) ∧
    (∀ i t, pages_text[i]? = some t → pyStrip t ≠ [] →
      (chunk_documents size overlap pages_text document_id).filter
        (fun c => c.metadata.page_number == i + 1) =
      (splitChunks size (size - overlap) t).map
        (fun u => ⟨u, ⟨document_id, i + 1, "pdf"⟩⟩)) := by
  refine ⟨?_, ?_, ?_, ?_⟩
  · intro c hc
    obtain ⟨i, t, hit, hstrip, hmeta, -⟩ :=
      mem_chunk_documents size overlap pages_text document_id c hc
    rw [hmeta]
    exact ⟨rfl, rfl, i, t, hit, rfl, hstrip⟩
  · intro i t hit hblank c hc hpn
    obtain ⟨i', t', hit', hstrip', hmeta, -⟩ :=
      mem_chunk_documents size overlap pages_text document_id c hc
    rw [hmeta] at hpn
    simp only [ChunkMeta.mk.injEq] at hpn
    have hii : i' = i := by omega
    subst hii
    rw [hit] at hit'
    injection hit' with ht
    exact hstrip' (ht ▸ hblank)
  · rw [chunk_documents]
    exact (pairwise_split_documents size overlap _
      (pairwise_pageRecords document_id 0 pages_text)).chain'
  · intro i t hit hstrip
    rw [chunk_documents, filter_split_documents]
    have h := filter_pageRecords document_id pages_text 0 i t hit
    simp only [Nat.zero_add] at h
    rw [show pages_text.enum = List.enumFrom 0 pages_text from rfl, h,
      if_pos hstrip]
    rw [split_documents, List.flatMap_cons, List.flatMap_nil,
      List.append_nil]

theorem chunker_metadata_and_order_witness :
    ([" ".data, "ab".data][0]? = some " ".data) ∧
    pyStrip " ".data = [] ∧
    (∀ c ∈ chunk_documents 5 2 [" ".data, "ab".data] "d",
      c.metadata.page_number ≠ 0 + 1) ∧
    ([" ".data, "ab".data][1]? = some "ab".data) ∧
    pyStrip "ab".data ≠ [] ∧
    (chunk_documents 5 2 [" ".data, "ab".data] "d").filter
      (fun c => c.metadata.page_number == 1 + 1) =
      (splitChunks 5 3 "ab".data).map (fun u => ⟨u, ⟨"d", 2, "pdf"⟩⟩) ∧
    chunk_documents 5 2 [" ".data, "ab".data] "d" =
      [⟨"ab".data, ⟨"d", 2, "pdf"⟩⟩] :=
  ⟨by decide, by decide,
   (chunker_metadata_and_order 5 2 [" ".data, "ab".data] "d").2.1 0 " ".data
     (by decide) (by decide),
   by decide, by decide,
   (chunker_metadata_and_order 5 2 [" ".data, "ab".data] "d").2.2.2 1 "ab".data
     (by decide) (by decide),
   by decide⟩
